import Mathlib

/-!
# Verification of the OpenXcom YAML binding layer and reference resolver

Shallow embedding of `src/Engine/Yaml.h`, `src/Engine/Yaml.cpp` and
`src/libs/rapidyaml/c4/yml/reference_resolver.hpp` (OpenXcom, Delian0 fork).

The document tree is the rapidyaml arena tree: nodes live in one array and
refer to each other by integer id.  `ConstNodeRef` is a (tree, id) pair where
either component may be absent (null tree / NONE id), exactly as in rapidyaml.
`YamlNodeReader` carries the four fields of the C++ class: `_node`, `_root`,
`_invalid`, `_index`.

rapidyaml internals that are not part of the shown sources (`ConstNodeRef`
flag accessors on invalid refs, `find_child`, `Parser::location`, the base64
codec of `c4::fmt`, and the body of `ReferenceResolver::resolve`) are
modelled from the spec; each such definition says so in its doc comment.
-/

namespace OpenXcomYaml

/-- Arena node of the document tree: optional key text, optional scalar value
text, map/seq container flags, optional explicit value tag, and the ordered
list of children ids (`src/libs/rapidyaml` arena layout, spec section 3). -/
structure Node where
  key : Option String := none
  val : Option String := none
  isMapF : Bool := false
  isSeqF : Bool := false
  valTag : Option String := none
  children : List Nat := []
  deriving Repr, DecidableEq

/-- Document tree: a growable array of node records indexed by integer id
(spec section 9, "arena-indexed tree instead of pointer graph"). -/
structure Tree where
  arena : List Node
  deriving Repr, DecidableEq

/-- Node record of an id, when the id is in range. -/
def Tree.get? (t : Tree) (i : Nat) : Option Node :=
  t.arena.get? i

/-- rapidyaml `ConstNodeRef`: a tree pointer (possibly null) plus a node id
(possibly NONE, here `none`). -/
structure ConstNodeRef where
  tree : Option Tree
  id : Option Nat
  deriving Repr, DecidableEq

/-- rapidyaml `ConstNodeRef::invalid()`: true iff the tree pointer is null or
the id is NONE. -/
def ConstNodeRef.invalidB (r : ConstNodeRef) : Bool :=
  r.tree.isNone || r.id.isNone

/-- Dereference a node ref to its node record, when the ref is valid and the
id is in range. -/
def ConstNodeRef.deref (r : ConstNodeRef) : Option Node :=
  match r.tree, r.id with
  | some t, some i => t.get? i
  | _, _ => none

/-- Modelled from the spec: rapidyaml `ConstNodeRef::is_map()` is a pure
predicate over node flags, false on an invalid cursor (spec section 4.3);
its body is not under the shown sources. -/
def ConstNodeRef.isMapRef (r : ConstNodeRef) : Bool :=
  (r.deref.map Node.isMapF).getD false

/-- Modelled from the spec: rapidyaml `ConstNodeRef::is_seq()`, false on an
invalid cursor (spec section 4.3). -/
def ConstNodeRef.isSeqRef (r : ConstNodeRef) : Bool :=
  (r.deref.map Node.isSeqF).getD false

/-- Modelled from the spec: rapidyaml `ConstNodeRef::has_val()`, false on an
invalid cursor (spec section 4.3). -/
def ConstNodeRef.hasValRef (r : ConstNodeRef) : Bool :=
  (r.deref.map (fun n => n.val.isSome)).getD false

/-- Modelled from the spec: rapidyaml `ConstNodeRef::has_val_tag()`, false on
an invalid cursor (spec section 4.3). -/
def ConstNodeRef.hasValTagRef (r : ConstNodeRef) : Bool :=
  (r.deref.map (fun n => n.valTag.isSome)).getD false

/-- Modelled from the spec: the null scalar constants recognised by
rapidyaml's `val_is_null` ("~" or "null" or "Null" or "NULL", or the empty
scalar; cf. the `YAML::Null` comment in `Yaml.h`). -/
def isNullText (s : String) : Bool :=
  s = "~" || s = "null" || s = "Null" || s = "NULL" || s = ""

/-- Modelled from the spec: rapidyaml `ConstNodeRef::val_is_null()`. -/
def ConstNodeRef.valIsNullRef (r : ConstNodeRef) : Bool :=
  (r.deref.map (fun n => (n.val.map isNullText).getD true)).getD false

/-- Modelled from the spec: rapidyaml `ConstNodeRef::val_tag()`: the tag
text of the node's value ("" when absent). -/
def ConstNodeRef.valTagRef (r : ConstNodeRef) : String :=
  ((r.deref.bind Node.valTag)).getD ""

/-- Modelled from the spec: rapidyaml `Tree::find_child` / spec section 4.1:
"look up a child of a map node by key (linear scan over children)"; returns
the id of the first child whose key text equals the given key, none if
absent. -/
def findChildId (t : Tree) (n : Node) (key : String) : Option Nat :=
  n.children.find? (fun cid => ((t.get? cid).bind Node.key) = some key)

/-- rapidyaml parser-side per-node source location (0-based line/column, as
noted by the comment in `YamlRootNodeReader::getLocationInFile`). -/
structure RawLoc where
  line : Nat
  col : Nat
  deriving Repr, DecidableEq

/-- Root context of a `YamlRootNodeReader`: file name, whether the parser
object exists and `_root` was set (both always true after `Parse`), whether
location tracking was requested, and the parser's recorded 0-based
location for each node id. -/
structure RootCtx where
  fileName : String
  hasParser : Bool := true
  rootSet : Bool := true
  locationsEnabled : Bool
  locOf : Nat → RawLoc

/-- Structured contents of the exceptions thrown by the binding layer.  Each
constructor corresponds to one throw site and records exactly the data the
C++ formats into the message. -/
inductive YamlErr where
  /-- `tryRead`/`tryReadVal` decode failure: "{file}:{line}:{col} ERROR:
  Could not deserialize value to type <{typeName}>!". -/
  | decodeErr (name : String) (line : Nat) (col : Nat) (typeName : String)
  /-- `readVal` on an invalid node: "Tried to deserialize invalid node!",
  prefixed with the root's file name when a root context exists. -/
  | invalidNode (fileName : Option String)
  /-- `readKey` on a keyless/invalid node: "Tried to deserialize invalid
  node's key!", prefixed with the file name when a root exists. -/
  | invalidKey (fileName : Option String)
  /-- Usage failure, e.g. requesting location data without tracking. -/
  | usageErr (msg : String)
  /-- Failure raised through the global error callback by a rapidyaml check
  (e.g. `operator>>` on a key whose text does not decode); carries only the
  check's message — no source location, no requested type name. -/
  | checkErr (msg : String)
  /-- Dereference of a null `_root` pointer (undefined behaviour in C++,
  modelled as a distinguished failure). -/
  | nullRootDeref
  deriving Repr, DecidableEq

/-- Message of the dead-parser branch of `YamlRootNodeReader::getLocationInFile`. -/
def noLocMsg : String := "Parsed yaml without location data logging enabled"

/-- Message of the modelled rapidyaml check that rejects a location query on
a parser whose location tracking is off. -/
def locDisabledMsg : String := "Parser location tracking is disabled"

/-- Message of the modelled rapidyaml check that fires when `operator>>`
cannot decode a present key's text. -/
def keyDecodeFailMsg : String := "could not deserialize key"

/-- Result type of location queries: file name plus 1-based line/column. -/
structure FileLoc where
  name : String
  line : Nat
  col : Nat
  deriving Repr, DecidableEq

/-- The root-side `YamlRootNodeReader::getLocationInFile(node)`: when the
parser exists and `_root` is set, fetch the parser location (0-based) and add
1 to line and column; otherwise throw the usage exception.  The inner
`Parser::location` behaviour when tracking is disabled is modelled from the
spec ("requesting it when tracking was disabled is a usage failure",
spec section 6). -/
def RootCtx.getLocationInFile (root : RootCtx) (nid : Nat) : Except YamlErr FileLoc :=
  if root.hasParser && root.rootSet then
    if root.locationsEnabled then
      .ok ⟨root.fileName, (root.locOf nid).line + 1, (root.locOf nid).col + 1⟩
    else
      .error (.usageErr locDisabledMsg)
  else
    .error (.usageErr noLocMsg)

/-- The `YamlNodeReader` cursor: `_node`, `_root`, `_invalid`, `_index`.
The index is the `unordered_map<csubstr, id_type>` modelled as an
association list where later insertions shadow earlier ones (they are
prepended, and lookup finds the first entry). -/
structure YamlNodeReader where
  node : ConstNodeRef
  root : Option RootCtx
  invalid : Bool
  index : Option (List (String × Nat))

/-- The default constructor `YamlNodeReader()`: null tree, NONE id, invalid,
no root, no index. -/
def YamlNodeReader.defaultCtor : YamlNodeReader :=
  { node := ⟨none, none⟩, root := none, invalid := true, index := none }

/-- The two-argument constructor `YamlNodeReader(root, node)`:
`_invalid = node.invalid()`, no index. -/
def YamlNodeReader.mkReader (root : Option RootCtx) (node : ConstNodeRef) : YamlNodeReader :=
  { node := node, root := root, invalid := node.invalidB, index := none }

/-- Index construction of the three-argument constructor: iterate the
node's children in order and store `key ↦ id`, later children overwriting
earlier ones (the C++ `(*_index)[childNode.key()] = childNode.id()`).
Prepending preserves overwrite semantics under first-match lookup.
Children without a key are skipped (modelled from the spec: the IndexMap is
a "mapping from a map node's child keys to child ids", spec section 3;
`key()` on a keyless child is not a defined rapidyaml operation). -/
def buildIndex (t : Tree) (n : Node) : List (String × Nat) :=
  n.children.foldl
    (fun acc cid =>
      match (t.get? cid).bind Node.key with
      | some k => (k, cid) :: acc
      | none => acc) []

/-- The three-argument constructor `YamlNodeReader(root, node, useIndex)`
with `useIndex = true`. -/
def YamlNodeReader.mkIndexed (root : Option RootCtx) (node : ConstNodeRef) : YamlNodeReader :=
  { node := node, root := root, invalid := node.invalidB,
    index := match node.tree, node.deref with
      | some t, some n => some (buildIndex t n)
      | _, _ => some [] }

/-- `YamlNodeReader::useIndex()`: an equivalent reader over the same node
that additionally owns a key index. -/
def YamlNodeReader.useIndex (r : YamlNodeReader) : YamlNodeReader :=
  YamlNodeReader.mkIndexed r.root r.node

/-- `YamlNodeReader::isValid()`. -/
def YamlNodeReader.isValid (r : YamlNodeReader) : Bool := !r.invalid

/-- `YamlNodeReader::isMap()`: delegates to the node ref without consulting
`_invalid`. -/
def YamlNodeReader.isMap (r : YamlNodeReader) : Bool := r.node.isMapRef

/-- `YamlNodeReader::isSeq()`. -/
def YamlNodeReader.isSeq (r : YamlNodeReader) : Bool := r.node.isSeqRef

/-- `YamlNodeReader::hasVal()`. -/
def YamlNodeReader.hasVal (r : YamlNodeReader) : Bool := r.node.hasValRef

/-- `YamlNodeReader::hasNullVal()`: `has_val() && val_is_null()`. -/
def YamlNodeReader.hasNullVal (r : YamlNodeReader) : Bool :=
  r.node.hasValRef && r.node.valIsNullRef

/-- `YamlNodeReader::hasValTag(tag)` for a core-tag enum value; the enum
comparison `to_tag(val_tag()) == tag` is abstracted through a conversion
function `toTag` standing for `ryml::to_tag`. -/
def YamlNodeReader.hasValTagE (toTag : String → Nat) (tag : Nat) (r : YamlNodeReader) : Bool :=
  if r.invalid || !r.node.hasValTagRef then false
  else toTag r.node.valTagRef == tag

/-- `YamlNodeReader::hasValTag(tagName)`: string comparison variant. -/
def YamlNodeReader.hasValTagS (tagName : String) (r : YamlNodeReader) : Bool :=
  if r.invalid || !r.node.hasValTagRef then false
  else r.node.valTagRef == tagName

/-- `YamlNodeReader::getValTag()`: the value tag text, or "" when the cursor
is invalid or the node has no tag. -/
def YamlNodeReader.getValTag (r : YamlNodeReader) : String :=
  if r.invalid || !r.node.hasValTagRef then ""
  else r.node.valTagRef

/-- Readers produced by the program always satisfy `_invalid =
_node.invalid()` (both constructors establish it); this is the
well-formedness assumption used by theorems over per-flag predicates. -/
def YamlNodeReader.wf (r : YamlNodeReader) : Prop :=
  r.invalid = r.node.invalidB

/-- `YamlNodeReader::getChildNode(key)`: a NONE-id ref when the cursor is
invalid; without an index, a NONE-id ref when the node is not a map, else
`find_child`; with an index, the indexed id or a NONE-id ref. -/
def YamlNodeReader.getChildNode (r : YamlNodeReader) (key : String) : ConstNodeRef :=
  if r.invalid then ⟨r.node.tree, none⟩
  else
    match r.index with
    | none =>
      if !r.node.isMapRef then ⟨r.node.tree, none⟩
      else
        match r.node.deref with
        | some n => ⟨r.node.tree, findChildId ((r.node.tree).getD ⟨[]⟩) n key⟩
        | none => ⟨r.node.tree, none⟩
    | some idx =>
      match idx.lookup key with
      | some cid => ⟨r.node.tree, some cid⟩
      | none => ⟨r.node.tree, none⟩

/-- `YamlNodeReader::operator[](key)`: wraps `getChildNode` in the
two-argument constructor, whose `_invalid` is the ref's `invalid()`. -/
def YamlNodeReader.opKey (r : YamlNodeReader) (key : String) : YamlNodeReader :=
  YamlNodeReader.mkReader r.root (r.getChildNode key)

/-- `YamlNodeReader::operator[](pos)`: positional child access, an invalid
cursor when the reader is invalid or the position is out of range. -/
def YamlNodeReader.opPos (r : YamlNodeReader) (pos : Nat) : YamlNodeReader :=
  if r.invalid then YamlNodeReader.mkReader r.root ⟨r.node.tree, none⟩
  else
    match r.node.deref with
    | some n => YamlNodeReader.mkReader r.root ⟨r.node.tree, n.children.get? pos⟩
    | none => YamlNodeReader.mkReader r.root ⟨r.node.tree, none⟩

/-- The member `YamlNodeReader::getLocationInFile()`: `_root->
getLocationInFile(_node)`; dereferencing a null `_root` is modelled as the
distinguished `nullRootDeref` failure. -/
def YamlNodeReader.getLocationInFile (r : YamlNodeReader) (nid : Nat) : Except YamlErr FileLoc :=
  match r.root with
  | none => .error .nullRootDeref
  | some root => root.getLocationInFile nid

/-- A typed decode step: the rapidyaml `read(node, &out)` overload set for
one output type, as a function from the node record to an optional value
(`none` = the overload returned false). -/
def Decoder (α : Type) := Node → Option α

/-- `YamlNodeReader::tryRead(key, out)` for a decoder `dec` whose C++ type
name is `tn`.  Returns `.ok none` where the C++ returns false without
touching the output, `.ok (some v)` where it returns true having stored `v`,
and `.error e` where it throws.  Follows the template body in `Yaml.h`:
invalid or non-map cursors yield false; without an index `find_child` then
decode, throwing a location-bearing decode error on failure; with an index,
the same through the key index. -/
def YamlNodeReader.tryRead {α : Type} (dec : Decoder α) (tn : String)
    (r : YamlNodeReader) (key : String) : Except YamlErr (Option α) :=
  if r.invalid || !r.node.isMapRef then .ok none
  else
    match r.index with
    | none =>
      match r.node.deref with
      | none => .ok none
      | some n =>
        match findChildId ((r.node.tree).getD ⟨[]⟩) n key with
        | none => .ok none
        | some cid =>
          match ((r.node.tree).getD ⟨[]⟩).get? cid with
          | none => .ok none
          | some child =>
            match dec child with
            | some v => .ok (some v)
            | none =>
              match r.getLocationInFile cid with
              | .ok loc => .error (.decodeErr loc.name loc.line loc.col tn)
              | .error e => .error e
    | some idx =>
      match idx.lookup key with
      | none => .ok none
      | some cid =>
        match ((r.node.tree).getD ⟨[]⟩).get? cid with
        | none => .ok none
        | some child =>
          match dec child with
          | some v => .ok (some v)
          | none =>
            match r.getLocationInFile cid with
            | .ok loc => .error (.decodeErr loc.name loc.line loc.col tn)
            | .error e => .error e

/-- `YamlNodeReader::tryReadVal(out)`: false on an invalid cursor, else
decode the node itself, throwing a location-bearing decode error on
failure. -/
def YamlNodeReader.tryReadVal {α : Type} (dec : Decoder α) (tn : String)
    (r : YamlNodeReader) : Except YamlErr (Option α) :=
  if r.invalid then .ok none
  else
    match r.node.deref with
    | none => .ok none
    | some n =>
      match dec n with
      | some v => .ok (some v)
      | none =>
        match r.getLocationInFile (r.node.id.getD 0) with
        | .ok loc => .error (.decodeErr loc.name loc.line loc.col tn)
        | .error e => .error e

/-- `YamlNodeReader::tryReadKey(out)`: false on an invalid or keyless
cursor, else decode the key text with `_node >> ryml::key(out)`.  The
`operator>>` body is not under the shown sources; modelled from the spec
(section 4.3, try-variants fail on a genuine decode error of present data):
a failing key decode raises through the global error callback, which throws
(`YamlErrorHandler::on_error`), carrying only the check's message. -/
def YamlNodeReader.tryReadKey {α : Type} (decK : String → Option α)
    (r : YamlNodeReader) : Except YamlErr (Option α) :=
  if r.invalid || !((r.node.deref.map (fun n => n.key.isSome)).getD false) then .ok none
  else
    match r.node.deref.bind Node.key with
    | some ktext =>
      match decK ktext with
      | some v => .ok (some v)
      | none => .error (.checkErr keyDecodeFailMsg)
    | none => .ok none

/-- `YamlNodeReader::readVal()` (no default): `tryReadVal`, and on false
throw "Tried to deserialize invalid node!" with the root's file name
prefixed when `_root` is non-null. -/
def YamlNodeReader.readVal {α : Type} (dec : Decoder α) (tn : String)
    (r : YamlNodeReader) : Except YamlErr α :=
  match r.tryReadVal dec tn with
  | .ok (some v) => .ok v
  | .ok none => .error (.invalidNode (r.root.map RootCtx.fileName))
  | .error e => .error e

/-- `YamlNodeReader::readVal(defaultValue)`: `tryReadVal`, and on false
return the caller-supplied default. -/
def YamlNodeReader.readValD {α : Type} (dec : Decoder α) (tn : String)
    (r : YamlNodeReader) (d : α) : Except YamlErr α :=
  match r.tryReadVal dec tn with
  | .ok (some v) => .ok v
  | .ok none => .ok d
  | .error e => .error e

/-- `YamlNodeReader::readKey()` (no default): `tryReadKey`, and on false
throw "Tried to deserialize invalid node's key!" with the file name when a
root exists. -/
def YamlNodeReader.readKey {α : Type} (decK : String → Option α)
    (r : YamlNodeReader) : Except YamlErr α :=
  match r.tryReadKey decK with
  | .ok (some v) => .ok v
  | .ok none => .error (.invalidKey (r.root.map RootCtx.fileName))
  | .error e => .error e

/-! ## Helper lemmas and example fixtures -/

theorem ConstNodeRef.deref_eq_none_of_invalidB (r : ConstNodeRef)
    (h : r.invalidB = true) : r.deref = none := by
  rcases r with ⟨t, i⟩
  cases t <;> cases i <;>
    simp [ConstNodeRef.invalidB, ConstNodeRef.deref] at h ⊢

/-- Example arena: node 0 is a map with children 1 ("a" ↦ "x") and
2 ("b" ↦ "7"). -/
def egN0 : Node := { isMapF := true, children := [1, 2] }

def egN1 : Node := { key := some "a", val := some "x" }

def egN2 : Node := { key := some "b", val := some "7" }

def egTree : Tree := ⟨[egN0, egN1, egN2]⟩

/-- Example root context with location tracking on; every node is recorded
at 0-based line 4, column 2. -/
def egRoot : RootCtx :=
  { fileName := "f.yml", locationsEnabled := true, locOf := fun _ => ⟨4, 2⟩ }

/-- Valid reader over node 0 of the example tree. -/
def egReader : YamlNodeReader :=
  YamlNodeReader.mkReader (some egRoot) ⟨some egTree, some 0⟩

theorem egReader_invalid : egReader.invalid = false := rfl

theorem egReader_wf : egReader.wf := rfl

/-! ## Claims C4 and C5 -/

/-- C4: for every reader cursor (well-formed, i.e. `_invalid` agrees with
the node ref's `invalid()`, as both constructors establish), when the cursor
is invalid the predicates `isMap`, `isSeq`, `hasVal`, `hasNullVal`, both
`hasValTag(...)` overloads and `getValTag` never throw — they are total
functions — and return `false`, respectively the empty string. -/
theorem C4_invalid_cursor_predicates (r : YamlNodeReader) (toTag : String → Nat)
    (tag : Nat) (tagName : String) (hwf : r.wf) (hinv : r.invalid = true) :
    r.isMap = false ∧ r.isSeq = false ∧ r.hasVal = false ∧ r.hasNullVal = false ∧
    r.hasValTagE toTag tag = false ∧ r.hasValTagS tagName = false ∧
    r.getValTag = "" := by
  have hd : r.node.deref = none :=
    ConstNodeRef.deref_eq_none_of_invalidB _ (hwf.symm.trans hinv)
  refine ⟨?_, ?_, ?_, ?_, ?_, ?_, ?_⟩ <;>
    simp [YamlNodeReader.isMap, YamlNodeReader.isSeq, YamlNodeReader.hasVal,
      YamlNodeReader.hasNullVal, YamlNodeReader.hasValTagE,
      YamlNodeReader.hasValTagS, YamlNodeReader.getValTag,
      ConstNodeRef.isMapRef, ConstNodeRef.isSeqRef, ConstNodeRef.hasValRef,
      ConstNodeRef.valIsNullRef, ConstNodeRef.hasValTagRef, hd, hinv]

/-- Witness for C4 at the default-constructed reader. -/
theorem C4_invalid_cursor_predicates_witness :
    YamlNodeReader.defaultCtor.isMap = false ∧
    YamlNodeReader.defaultCtor.getValTag = "" := by
  have h := C4_invalid_cursor_predicates YamlNodeReader.defaultCtor
    (fun _ => 0) 0 "!!str" rfl rfl
  exact ⟨h.1, h.2.2.2.2.2.2⟩

/-- C5: keyed lookup `operator[]` (non-indexed path).  (1) On a valid map
cursor whose node contains the key, it returns the cursor of the found
child, and that cursor is valid.  (2) When the key is absent or the node is
not a map, it returns an invalid cursor (without failing — the operation is
total).  (3) An invalid cursor yields an invalid cursor, and hence (4)
invalidity propagates through arbitrarily chained lookups, so
`r[a][b][c]...` never fails. -/
theorem C5_keyed_lookup_invalid_propagation (r : YamlNodeReader) (k : String) :
    (∀ t n cid, r.invalid = false → r.index = none → r.node.tree = some t →
      r.node.deref = some n → r.node.isMapRef = true → findChildId t n k = some cid →
      r.opKey k = YamlNodeReader.mkReader r.root ⟨some t, some cid⟩ ∧
        (r.opKey k).invalid = false) ∧
    (∀ t n, r.invalid = false → r.index = none → r.node.tree = some t →
      r.node.deref = some n →
      (r.node.isMapRef = false ∨ findChildId t n k = none) →
      (r.opKey k).invalid = true) ∧
    (r.invalid = true → (r.opKey k).invalid = true) ∧
    (∀ keys : List String, r.invalid = true →
      (keys.foldl YamlNodeReader.opKey r).invalid = true) := by
  have hstep : ∀ (s : YamlNodeReader) (k' : String), s.invalid = true →
      (s.opKey k').invalid = true := by
    intro s k' hs
    simp [YamlNodeReader.opKey, YamlNodeReader.getChildNode, hs,
      YamlNodeReader.mkReader, ConstNodeRef.invalidB]
  refine ⟨?_, ?_, hstep r k, ?_⟩
  · intro t n cid hinv hidx htree hderef hmap hfind
    simp only [YamlNodeReader.opKey, YamlNodeReader.getChildNode, hinv, hidx,
      htree, hderef, hmap, Bool.not_true, if_false, Option.getD_some, hfind]
    exact ⟨rfl, rfl⟩
  · intro t n hinv hidx htree hderef habs
    rcases habs with hmap | hfind
    · simp [YamlNodeReader.opKey, YamlNodeReader.getChildNode, hinv, hidx,
        htree, hderef, hmap, YamlNodeReader.mkReader, ConstNodeRef.invalidB]
    · simp [YamlNodeReader.opKey, YamlNodeReader.getChildNode, hinv, hidx,
        htree, hderef, hfind, YamlNodeReader.mkReader, ConstNodeRef.invalidB]
  · intro keys
    induction keys generalizing r with
    | nil => intro h; simpa using h
    | cons a rest ih =>
      intro h
      exact ih (r.opKey a) (hstep r a h)

/-- Witness for C5: on the example tree, `["a"]` finds child 1 and is
valid; `["zz"]` is invalid; lookups chained after an invalid lookup stay
invalid and never fail. -/
theorem C5_keyed_lookup_invalid_propagation_witness :
    (egReader.opKey "a").invalid = false ∧
    (egReader.opKey "zz").invalid = true ∧
    (((YamlNodeReader.defaultCtor.opKey "a").opKey "b").opKey "c").invalid = true := by
  refine ⟨?_, ?_, ?_⟩
  · exact ((C5_keyed_lookup_invalid_propagation egReader "a").1 egTree egN0 1
      rfl rfl rfl rfl rfl (by decide)).2
  · exact (C5_keyed_lookup_invalid_propagation egReader "zz").2.1 egTree egN0
      rfl rfl rfl rfl (Or.inr (by decide))
  · exact (C5_keyed_lookup_invalid_propagation YamlNodeReader.defaultCtor "a").2.2.2
      ["a", "b", "c"] rfl

/-! ## Claims C2 and C3 -/

/-- Whether a thrown error's message carries any source-location data (the
decode error formats file, line and column; the invalid-node/key errors
prefix the file name only when the cursor had a root). -/
def YamlErr.carriesLocation : YamlErr → Bool
  | .decodeErr _ _ _ _ => true
  | .invalidNode (some _) => true
  | .invalidKey (some _) => true
  | _ => false

/-- The requested-type name carried by a thrown error, when any. -/
def YamlErr.typeNameOf : YamlErr → Option String
  | .decodeErr _ _ _ tn => some tn
  | _ => none

/-- Invalid reader with a root context: `egReader["zz"]` (missing key). -/
def egInvalidReader : YamlNodeReader := egReader.opKey "zz"

/-- C2 (amended): on a missing/invalid cursor, `readVal` with a
caller-supplied default never fails and returns the default, whereas
`readVal` without a default throws the invalid-node error; that error
carries source-location data (the root's file name) exactly when the cursor
has a root context. -/
theorem C2_readVal_default_vs_throw {α : Type} (dec : Decoder α) (tn : String)
    (r : YamlNodeReader) (d : α) (hinv : r.invalid = true) :
    r.readValD dec tn d = .ok d ∧
    r.readVal dec tn = .error (.invalidNode (r.root.map RootCtx.fileName)) ∧
    (YamlErr.invalidNode (r.root.map RootCtx.fileName)).carriesLocation
      = r.root.isSome := by
  refine ⟨?_, ?_, ?_⟩
  · simp [YamlNodeReader.readValD, YamlNodeReader.tryReadVal, hinv]
  · simp [YamlNodeReader.readVal, YamlNodeReader.tryReadVal, hinv]
  · cases r.root <;> simp [YamlErr.carriesLocation]

/-- Witness for C2 at the missing-key cursor of the example tree. -/
theorem C2_readVal_default_vs_throw_witness :
    egInvalidReader.readValD (fun n => n.val) "string" "dflt" = .ok "dflt" ∧
    egInvalidReader.readVal (fun n => n.val) "string" =
      .error (.invalidNode (some "f.yml")) := by
  have h := C2_readVal_default_vs_throw (fun n => n.val) "string"
    egInvalidReader "dflt" rfl
  exact ⟨h.1, h.2.1⟩

/-- Counterexample to C2 as stated: a rootless cursor (the default
constructor, also produced by `YamlNodeWriter::toReader`) is invalid, and
`readVal` without a default throws an error that carries no source location
at all. -/
theorem C2_counterexample_rootless_cursor :
    YamlNodeReader.defaultCtor.invalid = true ∧
    YamlNodeReader.defaultCtor.readVal (fun _ => (none : Option Nat)) "int" =
      .error (.invalidNode none) ∧
    (YamlErr.invalidNode none).carriesLocation = false :=
  ⟨rfl, rfl, rfl⟩

/-- Root context parsed without location tracking (the `YamlString`
constructor passes `withNodeLocations = false`). -/
def egRootNoLoc : RootCtx :=
  { fileName := "inline.yml", locationsEnabled := false, locOf := fun _ => ⟨0, 0⟩ }

/-- Valid reader over the example tree under the tracking-off root. -/
def egReaderNoLoc : YamlNodeReader :=
  YamlNodeReader.mkReader (some egRootNoLoc) ⟨some egTree, some 0⟩

/-- Node record of an id seen through a reader's tree (the expression
`_node.tree()->cref(id)` of the C++). -/
def YamlNodeReader.treeGet (r : YamlNodeReader) (cid : Nat) : Option Node :=
  ((r.node.tree).getD ⟨[]⟩).get? cid

/-- C3 (amended): `tryRead`, `tryReadVal` and `tryReadKey` return false,
raising nothing, when the cursor is invalid or the looked-up datum is
absent (non-map cursor or missing child for `tryRead`; invalid cursor for
`tryReadVal`; invalid or keyless cursor for `tryReadKey`); they return true
and populate the output when the present datum decodes; and they fail only
on a genuine decode error of present data — absence is always
distinguishable from a decode error at the call site.  What the failure
carries: for `tryRead` (5) and `tryReadVal` (9) the error carries the
source location (file, 1-based line/column) and the requested type name
exactly when the cursor's root exists and was parsed with location
tracking — with tracking disabled the location fetch itself raises a usage
failure carrying neither, and with no root context the failure is a
null-root dereference; `tryReadKey`'s decode failure (12) surfaces through
the global error callback, whose installed handler throws only the check's
message (Yaml.cpp `YamlErrorHandler::on_error` discards the location), so
it carries neither location nor type name. -/
theorem C3_tryRead_absence_vs_decode_error {α β γ : Type} (dec : Decoder α)
    (tn : String) (decV : Decoder β) (tnV : String) (decK : String → Option γ)
    (r : YamlNodeReader) (key : String) :
    (r.invalid = true ∨ r.node.isMapRef = false →
      r.tryRead dec tn key = .ok none) ∧
    (∀ t n, r.invalid = false → r.node.isMapRef = true → r.index = none →
      r.node.tree = some t → r.node.deref = some n → findChildId t n key = none →
      r.tryRead dec tn key = .ok none) ∧
    (∀ t n cid child v, r.invalid = false → r.node.isMapRef = true →
      r.index = none → r.node.tree = some t → r.node.deref = some n →
      findChildId t n key = some cid → t.get? cid = some child →
      dec child = some v → r.tryRead dec tn key = .ok (some v)) ∧
    (∀ e, r.tryRead dec tn key = .error e →
      ∃ cid child, r.treeGet cid = some child ∧ dec child = none) ∧
    (∀ t n cid child, r.invalid = false → r.node.isMapRef = true →
      r.index = none → r.node.tree = some t → r.node.deref = some n →
      findChildId t n key = some cid → t.get? cid = some child →
      dec child = none →
      (∀ root, r.root = some root → root.hasParser = true → root.rootSet = true →
        (root.locationsEnabled = true →
          r.tryRead dec tn key = .error (.decodeErr root.fileName
            ((root.locOf cid).line + 1) ((root.locOf cid).col + 1) tn)) ∧
        (root.locationsEnabled = false →
          r.tryRead dec tn key = .error (.usageErr locDisabledMsg))) ∧
      (r.root = none → r.tryRead dec tn key = .error .nullRootDeref)) ∧
    (r.invalid = true → r.tryReadVal decV tnV = .ok none) ∧
    (∀ n v, r.invalid = false → r.node.deref = some n → decV n = some v →
      r.tryReadVal decV tnV = .ok (some v)) ∧
    (∀ e, r.tryReadVal decV tnV = .error e →
      ∃ n, r.node.deref = some n ∧ decV n = none) ∧
    (∀ n, r.invalid = false → r.node.deref = some n → decV n = none →
      (∀ root, r.root = some root → root.hasParser = true → root.rootSet = true →
        (root.locationsEnabled = true →
          r.tryReadVal decV tnV = .error (.decodeErr root.fileName
            ((root.locOf (r.node.id.getD 0)).line + 1)
            ((root.locOf (r.node.id.getD 0)).col + 1) tnV)) ∧
        (root.locationsEnabled = false →
          r.tryReadVal decV tnV = .error (.usageErr locDisabledMsg))) ∧
      (r.root = none → r.tryReadVal decV tnV = .error .nullRootDeref)) ∧
    (r.invalid = true ∨ r.node.deref.bind Node.key = none →
      r.tryReadKey decK = .ok none) ∧
    (∀ n ktext v, r.invalid = false → r.node.deref = some n →
      n.key = some ktext → decK ktext = some v →
      r.tryReadKey decK = .ok (some v)) ∧
    (∀ n ktext, r.invalid = false → r.node.deref = some n →
      n.key = some ktext → decK ktext = none →
      r.tryReadKey decK = .error (.checkErr keyDecodeFailMsg)) := by
  refine ⟨?_, ?_, ?_, ?_, ?_, ?_, ?_, ?_, ?_, ?_, ?_, ?_⟩
  · rintro (h | h) <;> simp [YamlNodeReader.tryRead, h]
  · intro t n hinv hmap hidx htree hderef hfind
    simp [YamlNodeReader.tryRead, hinv, hmap, hidx, htree, hderef, hfind]
  · intro t n cid child v hinv hmap hidx htree hderef hfind hget hdec
    simp [YamlNodeReader.tryRead, hinv, hmap, hidx, htree, hderef, hfind,
      Tree.get?] at hget ⊢
    simp [hget, hdec]
  · intro e he
    unfold YamlNodeReader.tryRead at he
    split at he
    · exact absurd he (by simp)
    · split at he
      · -- non-indexed path
        split at he
        · exact absurd he (by simp)
        · split at he
          · exact absurd he (by simp)
          · split at he
            · exact absurd he (by simp)
            · split at he
              · exact absurd he (by simp)
              · simp only [YamlNodeReader.treeGet]
                exact ⟨_, _, by assumption, by assumption⟩
      · -- indexed path
        split at he
        · exact absurd he (by simp)
        · split at he
          · exact absurd he (by simp)
          · split at he
            · exact absurd he (by simp)
            · simp only [YamlNodeReader.treeGet]
              exact ⟨_, _, by assumption, by assumption⟩
  · intro t n cid child hinv hmap hidx htree hderef hfind hget hdec
    constructor
    · intro root hroot hp hs
      constructor
      · intro hloc
        simp [YamlNodeReader.tryRead, hinv, hmap, hidx, htree, hderef, hfind,
          Tree.get?] at hget ⊢
        simp [hget, hdec, YamlNodeReader.getLocationInFile, hroot,
          RootCtx.getLocationInFile, hp, hs, hloc]
      · intro hloc
        simp [YamlNodeReader.tryRead, hinv, hmap, hidx, htree, hderef, hfind,
          Tree.get?] at hget ⊢
        simp [hget, hdec, YamlNodeReader.getLocationInFile, hroot,
          RootCtx.getLocationInFile, hp, hs, hloc]
    · intro hroot
      simp [YamlNodeReader.tryRead, hinv, hmap, hidx, htree, hderef, hfind,
        Tree.get?] at hget ⊢
      simp [hget, hdec, YamlNodeReader.getLocationInFile, hroot]
  · intro hinv
    simp [YamlNodeReader.tryReadVal, hinv]
  · intro n v hinv hderef hdec
    simp [YamlNodeReader.tryReadVal, hinv, hderef, hdec]
  · intro e he
    unfold YamlNodeReader.tryReadVal at he
    split at he
    · exact absurd he (by simp)
    · split at he
      · exact absurd he (by simp)
      · split at he
        · exact absurd he (by simp)
        · exact ⟨_, by assumption, by assumption⟩
  · intro n hinv hderef hdec
    constructor
    · intro root hroot hp hs
      constructor
      · intro hloc
        simp [YamlNodeReader.tryReadVal, hinv, hderef, hdec,
          YamlNodeReader.getLocationInFile, hroot, RootCtx.getLocationInFile,
          hp, hs, hloc]
      · intro hloc
        simp [YamlNodeReader.tryReadVal, hinv, hderef, hdec,
          YamlNodeReader.getLocationInFile, hroot, RootCtx.getLocationInFile,
          hp, hs, hloc]
    · intro hroot
      simp [YamlNodeReader.tryReadVal, hinv, hderef, hdec,
        YamlNodeReader.getLocationInFile, hroot]
  · intro habs
    rcases habs with hinv | hkey
    · simp [YamlNodeReader.tryReadKey, hinv]
    · unfold YamlNodeReader.tryReadKey
      cases hd : r.node.deref with
      | none => simp [hd]
      | some n =>
        have hk : n.key = none := by
          rw [hd] at hkey
          simpa using hkey
        simp [hd, hk]
  · intro n ktext v hinv hderef hkey hdec
    simp [YamlNodeReader.tryReadKey, hinv, hderef, hkey, hdec]
  · intro n ktext hinv hderef hkey hdec
    simp [YamlNodeReader.tryReadKey, hinv, hderef, hkey, hdec]

/-- Valid reader over child node 1 (key "a", value "x") of the example
tree, under the tracking-enabled root. -/
def egReaderN1 : YamlNodeReader :=
  YamlNodeReader.mkReader (some egRoot) ⟨some egTree, some 1⟩

/-- Witness for C3: on the example tree, `tryRead` of key "a" succeeds, a
missing key and an invalid cursor yield false, and a decode failure under
the tracking-enabled root throws the location- and type-bearing decode
error (1-based line 5, column 3 from the recorded 0-based (4,2));
`tryReadVal` succeeds on node 1 and throws the same decode error on a
failing decode; `tryReadKey` succeeds on node 1's key, throws the error
callback's check failure on a key-decode error, and yields false (no
error) on the keyless root node. -/
theorem C3_tryRead_absence_vs_decode_error_witness :
    egReader.tryRead (fun nd => nd.val) "string" "a" = .ok (some "x") ∧
    egReader.tryRead (fun nd => nd.val) "string" "zz" = .ok none ∧
    YamlNodeReader.defaultCtor.tryRead (fun nd => nd.val) "string" "a" = .ok none ∧
    egReader.tryRead (fun _ => (none : Option Nat)) "int" "a" =
      .error (.decodeErr "f.yml" 5 3 "int") ∧
    egReaderN1.tryReadVal (fun nd => nd.val) "string" = .ok (some "x") ∧
    egReaderN1.tryReadVal (fun _ => (none : Option Nat)) "int" =
      .error (.decodeErr "f.yml" 5 3 "int") ∧
    egReaderN1.tryReadKey (fun s => (some s : Option String)) = .ok (some "a") ∧
    egReaderN1.tryReadKey (fun _ => (none : Option Nat)) =
      .error (.checkErr keyDecodeFailMsg) ∧
    egReader.tryReadKey (fun s => (some s : Option String)) = .ok none := by
  refine ⟨?_, ?_, ?_, ?_, ?_, ?_, ?_, ?_, ?_⟩
  · exact (C3_tryRead_absence_vs_decode_error (fun nd => nd.val) "string"
      (fun nd => nd.val) "string" (fun s => (some s : Option String))
      egReader "a").2.2.1 egTree egN0 1 egN1 "x" rfl rfl rfl rfl rfl
      (by decide) rfl rfl
  · exact (C3_tryRead_absence_vs_decode_error (fun nd => nd.val) "string"
      (fun nd => nd.val) "string" (fun s => (some s : Option String))
      egReader "zz").2.1 egTree egN0 rfl rfl rfl rfl rfl (by decide)
  · exact (C3_tryRead_absence_vs_decode_error (fun nd => nd.val) "string"
      (fun nd => nd.val) "string" (fun s => (some s : Option String))
      YamlNodeReader.defaultCtor "a").1 (Or.inl rfl)
  · exact (((C3_tryRead_absence_vs_decode_error (fun _ => (none : Option Nat))
      "int" (fun _ => (none : Option Nat)) "int" (fun _ => (none : Option Nat))
      egReader "a").2.2.2.2.1 egTree egN0 1 egN1 rfl rfl rfl rfl rfl
      (by decide) rfl rfl).1 egRoot rfl rfl rfl).1 rfl
  · exact (C3_tryRead_absence_vs_decode_error (fun nd => nd.val) "string"
      (fun nd => nd.val) "string" (fun s => (some s : Option String))
      egReaderN1 "a").2.2.2.2.2.2.1 egN1 "x" rfl rfl rfl
  · exact (((C3_tryRead_absence_vs_decode_error (fun _ => (none : Option Nat))
      "int" (fun _ => (none : Option Nat)) "int" (fun _ => (none : Option Nat))
      egReaderN1 "a").2.2.2.2.2.2.2.2.1 egN1 rfl rfl rfl).1
      egRoot rfl rfl rfl).1 rfl
  · exact (C3_tryRead_absence_vs_decode_error (fun nd => nd.val) "string"
      (fun nd => nd.val) "string" (fun s => (some s : Option String))
      egReaderN1 "a").2.2.2.2.2.2.2.2.2.2.1 egN1 "a" "a" rfl rfl rfl rfl
  · exact (C3_tryRead_absence_vs_decode_error (fun _ => (none : Option Nat))
      "int" (fun _ => (none : Option Nat)) "int" (fun _ => (none : Option Nat))
      egReaderN1 "a").2.2.2.2.2.2.2.2.2.2.2 egN1 "a" rfl rfl rfl rfl
  · exact (C3_tryRead_absence_vs_decode_error (fun nd => nd.val) "string"
      (fun nd => nd.val) "string" (fun s => (some s : Option String))
      egReader "a").2.2.2.2.2.2.2.2.2.1 (Or.inr rfl)

/-- Counterexample to C3 as stated: under a root parsed without location
tracking (the `YamlString` constructor), a genuine decode error of present
data does throw, but the thrown error is the location-fetch usage failure,
which carries neither a source location nor the requested type name. -/
theorem C3_counterexample_tracking_off :
    egReaderNoLoc.tryRead (fun _ => (none : Option Nat)) "int" "a" =
      .error (.usageErr locDisabledMsg) ∧
    (YamlErr.usageErr locDisabledMsg).typeNameOf = none ∧
    (YamlErr.usageErr locDisabledMsg).carriesLocation = false :=
  ⟨rfl, rfl, rfl⟩

/-! ## Claim C6: indexed vs non-indexed lookup -/

/-- Key/id pairs of a node's keyed children, in child order. -/
def keyedPairs (t : Tree) (l : List Nat) : List (String × Nat) :=
  l.filterMap (fun cid => ((t.get? cid).bind Node.key).map (fun k => (k, cid)))

theorem buildIndex_eq_reverse_keyedPairs (t : Tree) (n : Node) :
    buildIndex t n = (keyedPairs t n.children).reverse := by
  suffices h : ∀ (l : List Nat) (acc : List (String × Nat)),
      l.foldl (fun acc cid => match (t.get? cid).bind Node.key with
        | some k => (k, cid) :: acc | none => acc) acc
      = (keyedPairs t l).reverse ++ acc by
    simpa [buildIndex] using h n.children []
  intro l
  induction l with
  | nil => intro acc; simp [keyedPairs]
  | cons cid rest ih =>
    intro acc
    cases hg : t.get? cid with
    | none => simp [keyedPairs, List.filterMap_cons, hg, ih]
    | some nd =>
      cases hkk : nd.key with
      | none => simp [keyedPairs, List.filterMap_cons, hg, hkk, ih]
      | some k => simp [keyedPairs, List.filterMap_cons, hg, hkk, ih]

theorem lookup_keyedPairs_eq_findChildId (t : Tree) (n : Node) (key : String) :
    List.lookup key (keyedPairs t n.children) = findChildId t n key := by
  unfold findChildId
  induction n.children with
  | nil => simp [keyedPairs]
  | cons cid rest ih =>
    rw [keyedPairs, List.filterMap_cons, List.find?_cons]
    cases hg : t.get? cid with
    | none =>
      have hp : (decide ((t.get? cid).bind Node.key = some key)) = false := by
        simp [hg]
      simp only [hg, Option.none_bind, Option.map_none', hp]
      exact ih
    | some nd =>
      cases hkk : nd.key with
      | none =>
        have hp : (decide ((t.get? cid).bind Node.key = some key)) = false := by
          simp [hg, hkk]
        simp only [hg, Option.some_bind, hkk, Option.map_none', hp]
        exact ih
      | some k =>
        by_cases hkey : k = key
        · subst hkey
          have hp : (decide ((t.get? cid).bind Node.key = some k)) = true := by
            simp [hg, hkk]
          simp only [hg, Option.some_bind, hkk, Option.map_some', hp]
          simp [List.lookup]
        · have hp : (decide (some k = some key)) = false := by simp [hkey]
          have hb : (key == k) = false := beq_eq_false_iff_ne.mpr (Ne.symm hkey)
          simp only [hg, Option.some_bind, hkk, Option.map_some', hp,
            List.lookup, hb]
          exact ih

theorem lookup_eq_none_of_not_mem_fst (key : String) (l : List (String × Nat))
    (h : key ∉ l.map Prod.fst) : List.lookup key l = none := by
  induction l with
  | nil => simp
  | cons p rest ih =>
    simp only [List.map_cons, List.mem_cons] at h
    push_neg at h
    simp [List.lookup, beq_eq_false_iff_ne.mpr h.1, ih h.2]

theorem lookup_append_str (key : String) (l₁ l₂ : List (String × Nat)) :
    List.lookup key (l₁ ++ l₂) =
      match List.lookup key l₁ with
      | some v => some v
      | none => List.lookup key l₂ := by
  induction l₁ with
  | nil => simp
  | cons p rest ih =>
    by_cases h : key == p.1
    · simp [List.lookup, h]
    · simp only [List.cons_append, List.lookup, h]
      exact ih

theorem lookup_reverse_of_nodup (key : String) (l : List (String × Nat))
    (h : (l.map Prod.fst).Nodup) :
    List.lookup key l.reverse = List.lookup key l := by
  induction l with
  | nil => simp
  | cons p rest ih =>
    obtain ⟨k1, v1⟩ := p
    simp only [List.map_cons, List.nodup_cons] at h
    by_cases hk : key = k1
    · have hnone' : List.lookup key rest.reverse = none := by
        refine lookup_eq_none_of_not_mem_fst key rest.reverse ?_
        rw [hk]
        simpa using h.1
      have hbeq : (key == k1) = true := beq_iff_eq.mpr hk
      simp [List.reverse_cons, lookup_append_str, hnone', List.lookup, hbeq]
    · have hbeq : (key == k1) = false := beq_eq_false_iff_ne.mpr hk
      simp [List.reverse_cons, lookup_append_str, List.lookup, hbeq, ih h.2]
      cases List.lookup key rest <;> rfl

/-- Index lookup agrees with `find_child` when the node's keyed children
have pairwise distinct keys. -/
theorem buildIndex_lookup_eq_findChildId (t : Tree) (n : Node) (key : String)
    (h : ((keyedPairs t n.children).map Prod.fst).Nodup) :
    List.lookup key (buildIndex t n) = findChildId t n key := by
  rw [buildIndex_eq_reverse_keyedPairs, lookup_reverse_of_nodup key _ h,
    lookup_keyedPairs_eq_findChildId]

/-- C6 (amended): over the same node, the indexed reader obtained by
`useIndex` and the non-indexed reader return identical results for every
keyed lookup (`getChildNode`, hence `operator[]`) and every `tryRead`,
provided the node's keyed children carry pairwise distinct keys (the map
invariant of well-formed documents) and keyed children occur only under map
nodes.  With duplicate keys they differ: the index keeps the last
same-keyed child while `find_child` returns the first. -/
theorem C6_indexed_lookup_equivalence {α : Type} (dec : Decoder α) (tn : String)
    (r : YamlNodeReader) (key : String) (t : Tree) (n : Node)
    (hinv : r.invalid = false) (hidx : r.index = none)
    (htree : r.node.tree = some t) (hderef : r.node.deref = some n)
    (hnodup : ((keyedPairs t n.children).map Prod.fst).Nodup)
    (hmapkeys : r.node.isMapRef = false → keyedPairs t n.children = []) :
    r.useIndex.getChildNode key = r.getChildNode key ∧
    r.useIndex.opKey key = r.opKey key ∧
    r.useIndex.tryRead dec tn key = r.tryRead dec tn key := by
  have hinvB : r.node.invalidB = false := by
    rcases hr : r.node.id with _ | i
    · rcases r.node with ⟨nt, ni⟩
      cases nt <;> simp_all [ConstNodeRef.deref]
    · simp [ConstNodeRef.invalidB, htree, hr]
  have hlookup : List.lookup key (buildIndex t n) = findChildId t n key :=
    buildIndex_lookup_eq_findChildId t n key hnodup
  have hui_node : r.useIndex.node = r.node := rfl
  have hui_root : r.useIndex.root = r.root := rfl
  have hui_inv : r.useIndex.invalid = false := by
    simp [YamlNodeReader.useIndex, YamlNodeReader.mkIndexed, hinvB]
  have hui_idx : r.useIndex.index = some (buildIndex t n) := by
    simp [YamlNodeReader.useIndex, YamlNodeReader.mkIndexed, htree, hderef]
  have hget : r.useIndex.getChildNode key = r.getChildNode key := by
    by_cases hmap : r.node.isMapRef = true
    · simp only [YamlNodeReader.getChildNode, hui_inv, hinv, hui_idx, hui_node,
        hidx, hmap, Bool.not_true, if_false, hderef, htree, Option.getD_some,
        hlookup]
      cases hfc : findChildId t n key <;> simp
    · have hmap' : r.node.isMapRef = false := by simpa using hmap
      have hkp : keyedPairs t n.children = [] := hmapkeys hmap'
      have hbi : buildIndex t n = [] := by
        rw [buildIndex_eq_reverse_keyedPairs, hkp]; rfl
      simp [YamlNodeReader.getChildNode, hui_inv, hinv, hui_idx, hui_node,
        hidx, hmap', hbi, List.lookup]
  refine ⟨hget, ?_, ?_⟩
  · simp [YamlNodeReader.opKey, hget, hui_root]
  · by_cases hmap : r.node.isMapRef = true
    · simp only [YamlNodeReader.tryRead, hui_inv, hinv, hui_idx, hui_node,
        hidx, hmap, Bool.not_true, Bool.or_false, if_false, hderef, htree,
        Option.getD_some, hlookup]
      cases hfc : findChildId t n key with
      | none => rfl
      | some cid =>
        cases hgc : t.get? cid with
        | none => rfl
        | some child =>
          cases hdc : dec child with
          | some v => rfl
          | none =>
            have : r.useIndex.getLocationInFile cid = r.getLocationInFile cid := rfl
            simp [Tree.get?] at hgc
            simp [hgc, hdc, this]
    · have hmap' : r.node.isMapRef = false := by simpa using hmap
      simp [YamlNodeReader.tryRead, hui_inv, hinv, hui_node, hmap']

/-- Witness for C6: on the distinct-key example tree, indexed and
non-indexed lookups and reads agree. -/
theorem C6_indexed_lookup_equivalence_witness :
    egReader.useIndex.getChildNode "b" = egReader.getChildNode "b" ∧
    egReader.useIndex.tryRead (fun nd => nd.val) "string" "b" =
      egReader.tryRead (fun nd => nd.val) "string" "b" := by
  have h := C6_indexed_lookup_equivalence (fun nd => nd.val) "string"
    egReader "b" egTree egN0 rfl rfl rfl rfl (by decide) (by decide)
  exact ⟨h.1, h.2.2⟩

/-- Duplicate-key fixture: a map whose two children both carry key "a". -/
def dupN0 : Node := { isMapF := true, children := [1, 2] }

def dupN1 : Node := { key := some "a", val := some "x" }

def dupN2 : Node := { key := some "a", val := some "y" }

def dupTree : Tree := ⟨[dupN0, dupN1, dupN2]⟩

def dupReader : YamlNodeReader :=
  YamlNodeReader.mkReader (some egRoot) ⟨some dupTree, some 0⟩

/-- Counterexample to C6 as stated: with duplicate keys the two readers
disagree — `find_child` returns the first "a" child (value "x") while the
index, built by overwriting, returns the last (value "y"). -/
theorem C6_counterexample_duplicate_keys :
    dupReader.getChildNode "a" = ⟨some dupTree, some 1⟩ ∧
    dupReader.useIndex.getChildNode "a" = ⟨some dupTree, some 2⟩ ∧
    dupReader.tryRead (fun nd => nd.val) "string" "a" = .ok (some "x") ∧
    dupReader.useIndex.tryRead (fun nd => nd.val) "string" "a" = .ok (some "y") := by
  refine ⟨?_, ?_, ?_, ?_⟩ <;> rfl

/-! ## Claim C7: base64 round trip

`YamlNodeWriter::writeBase64` stores `c4::fmt::base64(data)` as the child's
value text and `YamlNodeReader::readValBase64` decodes it back.  The codec
itself lives in `c4::format`, not under the shown sources; it is modelled
from the spec as the standard binary-safe text encoding (RFC 4648 base64
with '=' padding), which is what the function names denote. -/

/-- The base64 alphabet. -/
def b64alphabet : List Char :=
  ['A', 'B', 'C', 'D', 'E', 'F', 'G', 'H', 'I', 'J', 'K', 'L', 'M',
   'N', 'O', 'P', 'Q', 'R', 'S', 'T', 'U', 'V', 'W', 'X', 'Y', 'Z',
   'a', 'b', 'c', 'd', 'e', 'f', 'g', 'h', 'i', 'j', 'k', 'l', 'm',
   'n', 'o', 'p', 'q', 'r', 's', 't', 'u', 'v', 'w', 'x', 'y', 'z',
   '0', '1', '2', '3', '4', '5', '6', '7', '8', '9', '+', '/']

/-- Character of a sextet value. -/
def b64char (n : Nat) : Char := b64alphabet.getD n '='

/-- Sextet value of a character, none for non-alphabet characters. -/
def b64val (c : Char) : Option Nat := b64alphabet.findIdx? (· == c)

/-- Modelled from the spec: the base64 encoder of `c4::fmt::base64`
(binary-safe text encoding; 3 bytes become 4 characters, trailing groups
are padded with '='). -/
def b64encode : List Nat → List Char
  | [] => []
  | [b0] => [b64char (b0 / 4), b64char (b0 % 4 * 16), '=', '=']
  | [b0, b1] =>
    [b64char (b0 / 4), b64char (b0 % 4 * 16 + b1 / 16), b64char (b1 % 16 * 4), '=']
  | b0 :: b1 :: b2 :: rest =>
    b64char (b0 / 4) :: b64char (b0 % 4 * 16 + b1 / 16) ::
      b64char (b1 % 16 * 4 + b2 / 64) :: b64char (b2 % 64) :: b64encode rest

/-- Modelled from the spec: the base64 decoder used by `readValBase64`
(none on malformed input). -/
def b64decode : List Char → Option (List Nat)
  | [] => some []
  | c0 :: c1 :: c2 :: c3 :: rest =>
    if rest.isEmpty && (c3 == '=') then
      if c2 == '=' then
        (b64val c0).bind fun v0 => (b64val c1).bind fun v1 =>
          some [v0 * 4 + v1 / 16]
      else
        (b64val c0).bind fun v0 => (b64val c1).bind fun v1 =>
          (b64val c2).bind fun v2 =>
            some [v0 * 4 + v1 / 16, v1 % 16 * 16 + v2 / 4]
    else
      (b64val c0).bind fun v0 => (b64val c1).bind fun v1 =>
        (b64val c2).bind fun v2 => (b64val c3).bind fun v3 =>
          (b64decode rest).bind fun tail =>
            some ((v0 * 4 + v1 / 16) :: (v1 % 16 * 16 + v2 / 4) ::
              (v2 % 4 * 64 + v3) :: tail)
  | _ => none

theorem b64val_b64char : ∀ v : Fin 64, b64val (b64char v.val) = some v.val := by
  decide

theorem b64char_ne_pad : ∀ v : Fin 64, (b64char v.val == '=') = false := by
  decide

theorem b64_roundtrip_chars : ∀ (bs : List Nat), (∀ b ∈ bs, b < 256) →
    b64decode (b64encode bs) = some bs
  | [], _ => rfl
  | [b0], h => by
    have hb0 : b0 < 256 := h b0 (by simp)
    have h1 := b64val_b64char ⟨b0 / 4, by omega⟩
    have h2 := b64val_b64char ⟨b0 % 4 * 16, by omega⟩
    simp [b64encode, b64decode, h1, h2]
    all_goals omega
  | [b0, b1], h => by
    have hb0 : b0 < 256 := h b0 (by simp)
    have hb1 : b1 < 256 := h b1 (by simp)
    have h1 := b64val_b64char ⟨b0 / 4, by omega⟩
    have h2 := b64val_b64char ⟨b0 % 4 * 16 + b1 / 16, by omega⟩
    have h3 := b64val_b64char ⟨b1 % 16 * 4, by omega⟩
    have hc2 := b64char_ne_pad ⟨b1 % 16 * 4, by omega⟩
    simp [b64encode, b64decode, h1, h2, h3, hc2]
    all_goals omega
  | b0 :: b1 :: b2 :: rest, h => by
    have hb0 : b0 < 256 := h b0 (by simp)
    have hb1 : b1 < 256 := h b1 (by simp)
    have hb2 : b2 < 256 := h b2 (by simp)
    have ih := b64_roundtrip_chars rest
      (fun b hb => h b (List.mem_cons_of_mem _ (List.mem_cons_of_mem _
        (List.mem_cons_of_mem _ hb))))
    have h1 := b64val_b64char ⟨b0 / 4, by omega⟩
    have h2 := b64val_b64char ⟨b0 % 4 * 16 + b1 / 16, by omega⟩
    have h3 := b64val_b64char ⟨b1 % 16 * 4 + b2 / 64, by omega⟩
    have h4 := b64val_b64char ⟨b2 % 64, by omega⟩
    have hc3 := b64char_ne_pad ⟨b2 % 64, by omega⟩
    simp [b64encode, b64decode, h1, h2, h3, h4, hc3, ih]
    all_goals omega

/-- The child node produced by `YamlNodeWriter::writeBase64(key, data,
size)`: a keyed scalar whose value text is the base64 encoding of the
bytes. -/
def writeBase64 (key : String) (data : List Nat) : Node :=
  { key := some key, val := some (String.mk (b64encode data)) }

/-- `YamlNodeReader::readValBase64()`: decode the node's value text through
the base64 codec (the C++ queries the decoded length first and then decodes
into a buffer of exactly that size; both steps read the same value text). -/
def YamlNodeReader.readValBase64 (r : YamlNodeReader) : Option (List Nat) :=
  (r.node.deref.bind Node.val).bind fun s => b64decode s.data

/-- C7: writing any byte sequence (any length, including zero) with
`writeBase64` and decoding the stored value with `readValBase64` returns
exactly the original bytes. -/
theorem C7_writeBase64_readValBase64_roundtrip (key : String) (data : List Nat)
    (h : ∀ b ∈ data, b < 256) :
    (YamlNodeReader.mkReader none
      ⟨some ⟨[writeBase64 key data]⟩, some 0⟩).readValBase64 = some data := by
  simp only [YamlNodeReader.readValBase64, YamlNodeReader.mkReader,
    ConstNodeRef.deref, Tree.get?, writeBase64, List.get?]
  exact b64_roundtrip_chars data h

/-- Witness for C7 at bytes [0, 255, 16, 7] (a full group plus a padded
one) and at the empty sequence. -/
theorem C7_writeBase64_readValBase64_roundtrip_witness :
    (YamlNodeReader.mkReader none
      ⟨some ⟨[writeBase64 "data" [0, 255, 16, 7]]⟩, some 0⟩).readValBase64 =
      some [0, 255, 16, 7] ∧
    (YamlNodeReader.mkReader none
      ⟨some ⟨[writeBase64 "data" []]⟩, some 0⟩).readValBase64 = some [] := by
  constructor
  · exact C7_writeBase64_readValBase64_roundtrip "data" [0, 255, 16, 7]
      (by decide)
  · exact C7_writeBase64_readValBase64_roundtrip "data" [] (by decide)

/-! ## Claim C9: location queries -/

/-- C9: on a root whose parser exists and whose `_root` is set (both always
hold after `Parse`), `getLocationInFile` returns, for every node, a
location carrying the file identifier and 1-based line and column (the
parser's 0-based values plus one) when location tracking was enabled at
construction, and fails with a usage failure when tracking was disabled. -/
theorem C9_getLocationInFile_tracking (root : RootCtx) (nid : Nat)
    (hp : root.hasParser = true) (hs : root.rootSet = true) :
    (root.locationsEnabled = true →
      root.getLocationInFile nid =
        .ok ⟨root.fileName, (root.locOf nid).line + 1, (root.locOf nid).col + 1⟩ ∧
      ∀ loc, root.getLocationInFile nid = .ok loc → 1 ≤ loc.line ∧ 1 ≤ loc.col) ∧
    (root.locationsEnabled = false →
      root.getLocationInFile nid = .error (.usageErr locDisabledMsg)) := by
  constructor
  · intro hloc
    constructor
    · simp [RootCtx.getLocationInFile, hp, hs, hloc]
    · intro loc hget
      have hkey : root.getLocationInFile nid =
          .ok ⟨root.fileName, (root.locOf nid).line + 1, (root.locOf nid).col + 1⟩ := by
        simp [RootCtx.getLocationInFile, hp, hs, hloc]
      rw [hkey] at hget
      injection hget with h
      subst h
      constructor
      · show 1 ≤ (root.locOf nid).line + 1
        omega
      · show 1 ≤ (root.locOf nid).col + 1
        omega
  · intro hloc
    simp [RootCtx.getLocationInFile, hp, hs, hloc]

/-- Witness for C9: the tracking-enabled example root answers with the file
name and 1-based (5, 3); the tracking-off root fails with the usage
error. -/
theorem C9_getLocationInFile_tracking_witness :
    egRoot.getLocationInFile 1 = .ok ⟨"f.yml", 5, 3⟩ ∧
    egRootNoLoc.getLocationInFile 1 = .error (.usageErr locDisabledMsg) := by
  constructor
  · exact ((C9_getLocationInFile_tracking egRoot 1 rfl rfl).1 rfl).1
  · exact (C9_getLocationInFile_tracking egRootNoLoc 1 rfl rfl).2 rfl

/-! ## Claim C10: deserializing into vector / map discards prior contents

Models `c4::yml::read(ConstNodeRef, std::vector*)` and
`c4::yml::read(ConstNodeRef, std::map*)` from `Yaml.h`: both clear the
destination first; the vector is resized to `num_children` and filled by
position, the map is filled with `emplace` (which keeps an existing key). -/

/-- `std::vector::clear()`. -/
def vecClear {α : Type} (_v : List α) : List α := []

/-- `std::vector::resize(len)` with value-initialised new elements. -/
def vecResize {α : Type} (v : List α) (len : Nat) (defaultV : α) : List α :=
  if len ≤ v.length then v.take len
  else v ++ List.replicate (len - v.length) defaultV

/-- The fill loop of the vector `read`: `for child: child >> (*vec)[pos++]`;
a decode failure throws (`none`). -/
def readVecLoop {α : Type} (dec : Decoder α) (t : Tree) :
    List Nat → Nat → List α → Option (List α)
  | [], _, acc => some acc
  | cid :: rest, pos, acc =>
    match (t.get? cid).bind dec with
    | some v => readVecLoop dec t rest (pos + 1) (acc.set pos v)
    | none => none

/-- `read(n, std::vector*)`: clear, resize to the child count, fill by
position. -/
def readVector {α : Type} (dec : Decoder α) (defaultV : α) (t : Tree) (n : Node)
    (prior : List α) : Option (List α) :=
  readVecLoop dec t n.children 0
    (vecResize (vecClear prior) n.children.length defaultV)

/-- The fill loop of the map `read`: decode key then value of each child
(each may throw), then `emplace` — which inserts only when the key is not
already present. -/
def readMapLoop {κ ν : Type} [BEq κ] (decK : Node → Option κ)
    (decV : Node → Option ν) (t : Tree) :
    List Nat → List (κ × ν) → Option (List (κ × ν))
  | [], acc => some acc
  | cid :: rest, acc =>
    match t.get? cid with
    | none => none
    | some ch =>
      match decK ch, decV ch with
      | some k, some v =>
        readMapLoop decK decV t rest
          (if (acc.lookup k).isSome then acc else acc ++ [(k, v)])
      | _, _ => none

/-- `read(n, std::map*)`: clear then emplace each child.  The `std::map`
is modelled as an association list in insertion order (its key-sorted
iteration order is abstracted away; entry count and per-key content are
preserved). -/
def readStdMap {κ ν : Type} [BEq κ] (decK : Node → Option κ)
    (decV : Node → Option ν) (t : Tree) (n : Node)
    (prior : List (κ × ν)) : Option (List (κ × ν)) :=
  readMapLoop decK decV t n.children (vecClear prior)

/-- Decoded value of the first child of `kids` whose decoded key is `k`. -/
def firstWithKey {κ ν : Type} [BEq κ] (decK : Node → Option κ)
    (decV : Node → Option ν) (t : Tree) : List Nat → κ → Option ν
  | [], _ => none
  | cid :: rest, k =>
    match t.get? cid with
    | none => none
    | some ch =>
      match decK ch, decV ch with
      | some k', some v' => if k == k' then some v' else firstWithKey decK decV t rest k
      | _, _ => none

theorem lookup_append_pairs {κ ν : Type} [BEq κ] (key : κ)
    (l₁ l₂ : List (κ × ν)) :
    List.lookup key (l₁ ++ l₂) =
      match List.lookup key l₁ with
      | some v => some v
      | none => List.lookup key l₂ := by
  induction l₁ with
  | nil => simp
  | cons p rest ih =>
    by_cases h : key == p.1
    · simp [List.lookup, h]
    · simp only [List.cons_append, List.lookup, h]
      exact ih

theorem take_succ_set {α : Type} : ∀ (acc : List α) (pos : Nat) (v : α),
    pos < acc.length → (acc.set pos v).take (pos + 1) = acc.take pos ++ [v]
  | [], _, _, h => by simp at h
  | a :: rest, 0, v, _ => by simp
  | a :: rest, pos + 1, v, h => by
    simp only [List.set_cons_succ, List.take_succ_cons, List.cons_append,
      List.cons.injEq, true_and]
    exact take_succ_set rest pos v (by simpa using h)

/-- Sequential decode of a list of child ids (the reference result the
vector fill loop is compared against). -/
def decodeAll {α : Type} (dec : Decoder α) (t : Tree) : List Nat → Option (List α)
  | [] => some []
  | cid :: rest =>
    match (t.get? cid).bind dec with
    | some v => (decodeAll dec t rest).map (v :: ·)
    | none => none

theorem readVecLoop_eq_decodeAll {α : Type} (dec : Decoder α) (t : Tree) :
    ∀ (kids : List Nat) (pos : Nat) (acc : List α),
      pos + kids.length = acc.length →
      readVecLoop dec t kids pos acc =
        (decodeAll dec t kids).map (fun vs => acc.take pos ++ vs)
  | [], pos, acc, h => by
    have h' : acc.length ≤ pos := by simp at h; omega
    have hto : acc.take pos = acc := List.take_of_length_le h'
    simp [readVecLoop, decodeAll, hto]
  | cid :: rest, pos, acc, h => by
    cases hf : (t.get? cid).bind dec with
    | none => simp [readVecLoop, decodeAll, hf]
    | some v =>
      have hlt : pos < acc.length := by
        simp at h
        omega
      have ih := readVecLoop_eq_decodeAll dec t rest (pos + 1) (acc.set pos v)
        (by simp at h ⊢; omega)
      simp only [readVecLoop, decodeAll, hf, ih, take_succ_set acc pos v hlt]
      cases hr : decodeAll dec t rest <;> simp [List.append_assoc]

theorem readMapLoop_lookup {κ ν : Type} [BEq κ] [LawfulBEq κ]
    (decK : Node → Option κ) (decV : Node → Option ν) (t : Tree) :
    ∀ (kids : List Nat) (acc m : List (κ × ν)),
      readMapLoop decK decV t kids acc = some m → ∀ k,
      List.lookup k m =
        match List.lookup k acc with
        | some v => some v
        | none => firstWithKey decK decV t kids k
  | [], acc, m, hm, k => by
    simp [readMapLoop] at hm
    subst hm
    cases h : List.lookup k acc <;> simp [firstWithKey, h]
  | cid :: rest, acc, m, hm, k => by
    rw [readMapLoop] at hm
    cases hg : t.get? cid with
    | none => simp [hg] at hm
    | some ch =>
      simp only [hg] at hm
      cases hk : decK ch with
      | none => simp [hk] at hm
      | some k' =>
        cases hv : decV ch with
        | none => simp [hk, hv] at hm
        | some v' =>
          simp only [hk, hv] at hm
          have ih := readMapLoop_lookup decK decV t rest _ m hm k
          rw [ih]
          simp only [firstWithKey, hg, hk, hv]
          cases ha : List.lookup k acc with
          | some v =>
            by_cases hin : (List.lookup k' acc).isSome
            · simp [hin, ha]
            · simp only [hin, if_false, Bool.false_eq_true, ite_false,
                lookup_append_pairs, ha]
          | none =>
            by_cases hkk : k == k'
            · have hkeq : k = k' := eq_of_beq hkk
              have : List.lookup k' acc = none := hkeq ▸ ha
              simp only [this, Option.isSome_none, Bool.false_eq_true,
                ite_false, lookup_append_pairs, ha, hkk, if_true]
              simp [List.lookup, hkk]
            · by_cases hin : (List.lookup k' acc).isSome
              · simp [hin, ha, hkk]
              · simp only [hin, Bool.false_eq_true, ite_false,
                  lookup_append_pairs, ha, hkk, if_false]
                simp [List.lookup, hkk]

theorem decodeAll_length {α : Type} (dec : Decoder α) (t : Tree) :
    ∀ (kids : List Nat) (out : List α),
      decodeAll dec t kids = some out → out.length = kids.length
  | [], out, h => by
    simp [decodeAll] at h
    simp [← h]
  | cid :: rest, out, h => by
    rw [decodeAll] at h
    cases hf : (t.get? cid).bind dec with
    | none => simp [hf] at h
    | some v =>
      simp only [hf] at h
      cases hr : decodeAll dec t rest with
      | none => simp [hr] at h
      | some vs =>
        simp [hr] at h
        simp [← h, decodeAll_length dec t rest vs hr]

/-- C10 (amended): deserializing a node into a `std::vector` or `std::map`
first discards the destination's prior contents, so the result is
independent of the container's value before the read; the vector then holds
exactly one element per child (the decoded children, in order), while the
map holds one element per distinct decoded key, the first occurrence of a
duplicated key winning (emplace does not overwrite). -/
theorem C10_container_read_clears {α κ ν : Type} [BEq κ] [LawfulBEq κ]
    (dec : Decoder α) (defaultV : α) (decK : Node → Option κ)
    (decV : Node → Option ν) (t : Tree) (n : Node)
    (prior prior' : List α) (priorM priorM' : List (κ × ν)) :
    (readVector dec defaultV t n prior = readVector dec defaultV t n prior') ∧
    (readVector dec defaultV t n prior = decodeAll dec t n.children) ∧
    (∀ out, readVector dec defaultV t n prior = some out →
      out.length = n.children.length) ∧
    (readStdMap decK decV t n priorM = readStdMap decK decV t n priorM') ∧
    (∀ m, readStdMap decK decV t n priorM = some m → ∀ k,
      List.lookup k m = firstWithKey decK decV t n.children k) := by
  have hvec : readVector dec defaultV t n prior = decodeAll dec t n.children := by
    unfold readVector vecClear vecResize
    rw [readVecLoop_eq_decodeAll dec t n.children 0 _
      (by cases hnc : n.children <;> simp [hnc])]
    cases hr : decodeAll dec t n.children <;> simp
  refine ⟨rfl, hvec, ?_, rfl, ?_⟩
  · intro out hout
    rw [hvec] at hout
    exact decodeAll_length dec t n.children out hout
  · intro m hm k
    have h := readMapLoop_lookup decK decV t n.children [] m hm k
    simpa using h

/-- Witness for C10: reading the example map node into a vector of values
yields one element per child regardless of the destination's prior
contents, and reading the duplicate-key map yields the first "a" child. -/
theorem C10_container_read_clears_witness :
    readVector Node.val "" egTree egN0 ["junk1", "junk2", "junk3"] =
      some ["x", "7"] ∧
    readStdMap Node.key Node.val dupTree dupN0 [("old", "old")] =
      some [("a", "x")] := by
  have h := C10_container_read_clears Node.val "" Node.key Node.val
    egTree egN0 ["junk1", "junk2", "junk3"] [] [] []
  constructor
  · rw [h.2.1]
    rfl
  · have h2 := C10_container_read_clears Node.val "" Node.key Node.val
      dupTree dupN0 [] [] [("old", "old")] []
    rw [h2.2.2.2.1]
    rfl

/-- Counterexample to C10 as stated: on a map node with two children both
keyed "a", the deserialized `std::map` holds one element (the first child's
value "x") although the node has two children. -/
theorem C10_counterexample_duplicate_keys :
    readStdMap Node.key Node.val dupTree dupN0 [] = some [("a", "x")] ∧
    dupN0.children.length = 2 ∧
    ([(("a" : String), ("x" : String))]).length = 1 :=
  ⟨rfl, rfl, rfl⟩

/-! ## Claims C1 and C8: the reference resolver

`ReferenceResolver::resolve` is declared in
`src/libs/rapidyaml/c4/yml/reference_resolver.hpp` but its body is not
under the shown sources; the algorithm is modelled from the spec
(section 4.2): a gather pass visits the tree in depth-first pre-order and
appends one entry per anchor/alias node, linking each entry to the previous
entry with the same anchor name (`prev_anchor`, one reverse-chronological
chain per name); the resolve pass walks each alias's chain backwards to the
most recent anchor.  The header shows the resolver's whole state: a tree
pointer and the entry array — no expansion budget of any kind — and carries
a `@todo` about billion-laughs amplification. -/

/-- Role of a node for the resolver: plain, anchor-carrying, or alias. -/
inductive RKind where
  | plain
  | anchor (name : String)
  | ref (name : String)
  deriving Repr, DecidableEq

/-- Document tree as seen by the resolver (rose tree, children ordered). -/
inductive RTree where
  | node (kind : RKind) (children : List RTree)

mutual

/-- Modelled from the spec: node count of a subtree (the cost of one deep
copy made by resolution). -/
def RTree.size : RTree → Nat
  | .node _ cs => 1 + sizeList cs

def sizeList : List RTree → Nat
  | [] => 0
  | c :: cs => RTree.size c + sizeList cs

end

/-- One gathered entry before chain linking: role flags, anchor/reference
name, and the node's subtree (standing for the `node` id stored by the C++
`RefData`). -/
structure RawRef where
  isAnchor : Bool
  isAlias : Bool
  name : String
  subtree : RTree

mutual

/-- Modelled from the spec: the gather pass — depth-first pre-order
traversal appending one entry per anchor- or alias-flagged node. -/
def gatherRaw : RTree → List RawRef
  | .node k cs =>
    (match k with
     | .plain => []
     | .anchor n => [⟨true, false, n, .node k cs⟩]
     | .ref n => [⟨false, true, n, .node k cs⟩]) ++ gatherRawList cs

def gatherRawList : List RTree → List RawRef
  | [] => []
  | c :: cs => gatherRaw c ++ gatherRawList cs

end

/-- Whether the entry at position `j` carries the given name. -/
def nameAt (raws : List RawRef) (j : Nat) (name : String) : Bool :=
  match raws.get? j with
  | some r => r.name == name
  | none => false

/-- Greatest index strictly below `i` whose entry carries `name` (the
incremental chain link: each new entry points at the previous entry with
the same name). -/
def lastNameIdx (raws : List RawRef) : Nat → String → Option Nat
  | 0, _ => none
  | i + 1, name => if nameAt raws i name then some i else lastNameIdx raws i name

/-- The C++ `ReferenceResolver::RefData`: role flags, name, described
subtree, and the `prev_anchor` chain link (an index into the entry array).
The tree-splicing fields `parent_ref`/`parent_ref_sibling` are not needed
for the matching rule and are omitted. -/
structure RefData where
  isAnchor : Bool
  isAlias : Bool
  name : String
  subtree : RTree
  prevAnchor : Option Nat

/-- Entry at position `i` with its chain link computed over the prefix. -/
def mkRef (raws : List RawRef) (i : Nat) : RefData :=
  match raws.get? i with
  | some r => ⟨r.isAnchor, r.isAlias, r.name, r.subtree, lastNameIdx raws i r.name⟩
  | none => ⟨false, false, "", .node .plain [], none⟩

/-- Modelled from the spec: `gather_anchors_and_refs_` — the chained entry
array over the pre-order traversal. -/
def gatherRefs (t : RTree) : List RefData :=
  let raws := gatherRaw t
  (List.range raws.length).map (fun i => mkRef raws i)

/-- Whether the entry at `j` carries the given name. -/
def esNameAt (es : List RefData) (j : Nat) (name : String) : Bool :=
  match es.get? j with
  | some e => e.name == name
  | none => false

/-- Whether the entry at `j` is an anchor carrying the given name. -/
def anchorAt (es : List RefData) (j : Nat) (name : String) : Bool :=
  match es.get? j with
  | some e => e.isAnchor && (e.name == name)
  | none => false

/-- Chain link recomputed over the final entry array. -/
def lastNameIdxD (es : List RefData) : Nat → String → Option Nat
  | 0, _ => none
  | i + 1, name => if esNameAt es i name then some i else lastNameIdxD es i name

/-- Specification side of the matching rule: the most recent (greatest
index) anchor with the given name gathered strictly before position `i`. -/
def mostRecentAnchorBefore (es : List RefData) : Nat → String → Option Nat
  | 0, _ => none
  | i + 1, name =>
    if anchorAt es i name then some i else mostRecentAnchorBefore es i name

/-- Modelled from the spec: the chain walk inside `lookup_` — follow
`prev_anchor` links backwards until an anchor-flagged entry is found
(entries that are aliases with the same name are stepped over; a resolved
alias carrying an anchor name has its anchor flag set).  Fuel is a bound on
chain length; chain indices strictly decrease, so `es.length` suffices. -/
def walkAnchors (es : List RefData) : Nat → Option Nat → Option Nat
  | _, none => none
  | 0, some _ => none
  | fuel + 1, some j =>
    match es.get? j with
    | none => none
    | some e => if e.isAnchor then some j else walkAnchors es fuel e.prevAnchor

/-- Modelled from the spec: `ReferenceResolver::lookup_` for the alias
entry at position `i`. -/
def lookupRef (es : List RefData) (i : Nat) : Option Nat :=
  match es.get? i with
  | some e => walkAnchors es es.length e.prevAnchor
  | none => none

/-- Failure conditions of the resolve step.  `overflow` is the dedicated
expansion-budget failure the claim posits; the modelled resolver never
produces it. -/
inductive ResolveErr where
  | refNotFound (name : String)
  | overflow
  deriving Repr, DecidableEq

/-- Modelled from the spec: the resolve pass — iterate entries in gather
order; each alias is matched through `lookup_`; a missing anchor aborts
with reference-not-found.  Output: (alias position, matched anchor
position) pairs in resolution order. -/
def resolveGo (es : List RefData) :
    List Nat → List (Nat × Nat) → Except ResolveErr (List (Nat × Nat))
  | [], acc => .ok acc
  | i :: rest, acc =>
    match es.get? i with
    | none => resolveGo es rest acc
    | some e =>
      if e.isAlias then
        match lookupRef es i with
        | some j => resolveGo es rest (acc ++ [(i, j)])
        | none => .error (.refNotFound e.name)
      else resolveGo es rest acc

/-- `ReferenceResolver::resolve`: gather, then resolve every entry. -/
def resolveRefs (t : RTree) : Except ResolveErr (List (Nat × Nat)) :=
  resolveGo (gatherRefs t) (List.range (gatherRefs t).length) []

/-- Total number of nodes deep-copied by a resolution outcome (each
resolved alias copies its matched anchor's entire subtree). -/
def copiedCount (es : List RefData) (ps : List (Nat × Nat)) : Nat :=
  (ps.map (fun p =>
    match es.get? p.2 with
    | some e => e.subtree.size
    | none => 0)).sum

/-- The resolver's whole state, as declared in the header (the only part of
the resolver under the shown sources): the tree pointer and the entry
stack.  There is no expansion-budget field, and `resolve` takes no budget
parameter. -/
structure ReferenceResolver where
  m_tree : Option RTree
  m_refs : List RefData

/-- Program-established chain invariant: every entry's `prev_anchor` is the
greatest strictly-earlier position carrying the same name. -/
def chainsWF (es : List RefData) : Prop :=
  ∀ i e, es.get? i = some e → e.prevAnchor = lastNameIdxD es i e.name

theorem gatherRefs_get? (t : RTree) (i : Nat) :
    (gatherRefs t).get? i =
      if i < (gatherRaw t).length then some (mkRef (gatherRaw t) i) else none := by
  unfold gatherRefs
  by_cases h : i < (gatherRaw t).length
  · simp [List.get?_eq_getElem?, List.getElem?_map, List.getElem?_range, h]
  · simp only [List.get?_eq_getElem?, List.getElem?_map, List.getElem?_range]
    simp [h]
    omega

theorem esNameAt_eq_nameAt (t : RTree) (j : Nat) (name : String) :
    esNameAt (gatherRefs t) j name = nameAt (gatherRaw t) j name := by
  unfold esNameAt nameAt
  rw [gatherRefs_get?]
  by_cases h : j < (gatherRaw t).length
  · rw [if_pos h]
    unfold mkRef
    cases hg : (gatherRaw t).get? j with
    | none =>
      exfalso
      have := List.get?_eq_none.mp hg
      omega
    | some r => simp
  · rw [if_neg h]
    have hn : (gatherRaw t)[j]? = none := List.getElem?_eq_none (by omega)
    simp [List.get?_eq_getElem?, hn]

theorem lastNameIdxD_eq_lastNameIdx (t : RTree) :
    ∀ (i : Nat) (name : String),
      lastNameIdxD (gatherRefs t) i name = lastNameIdx (gatherRaw t) i name
  | 0, _ => rfl
  | i + 1, name => by
    rw [lastNameIdxD, lastNameIdx, esNameAt_eq_nameAt,
      lastNameIdxD_eq_lastNameIdx t i name]

theorem gatherRefs_chainsWF (t : RTree) : chainsWF (gatherRefs t) := by
  intro i e he
  rw [gatherRefs_get?] at he
  by_cases h : i < (gatherRaw t).length
  · rw [if_pos h] at he
    injection he with he
    subst he
    cases hg : (gatherRaw t)[i]? with
    | none =>
      exfalso
      have := List.getElem?_eq_none_iff.mp hg
      omega
    | some r =>
      simp [mkRef, List.get?_eq_getElem?, hg, lastNameIdxD_eq_lastNameIdx t]
  · rw [if_neg h] at he
    exact absurd he (by simp)

theorem esNameAt_of_anchorAt (es : List RefData) (j : Nat) (name : String)
    (h : anchorAt es j name = true) : esNameAt es j name = true := by
  unfold anchorAt at h
  unfold esNameAt
  cases hg : es.get? j with
  | none => rw [hg] at h; simp at h
  | some e =>
    rw [hg] at h
    simp at h ⊢
    exact h.2

theorem mostRecent_eq_none (es : List RefData) (name : String) :
    ∀ i, lastNameIdxD es i name = none → mostRecentAnchorBefore es i name = none
  | 0, _ => rfl
  | i + 1, h => by
    rw [lastNameIdxD] at h
    by_cases hn : esNameAt es i name = true
    · rw [if_pos hn] at h
      exact absurd h (by simp)
    · rw [if_neg hn] at h
      rw [mostRecentAnchorBefore]
      have hanch : anchorAt es i name = false := by
        cases ha : anchorAt es i name
        · rfl
        · exact absurd (esNameAt_of_anchorAt es i name ha) hn
      rw [if_neg (by simp [hanch])]
      exact mostRecent_eq_none es name i h

theorem lastNameIdxD_spec (es : List RefData) (name : String) :
    ∀ i j', lastNameIdxD es i name = some j' →
      j' < i ∧ esNameAt es j' name = true ∧
        ∀ k, j' < k → k < i → esNameAt es k name = false
  | 0, j', h => by simp [lastNameIdxD] at h
  | i + 1, j', h => by
    rw [lastNameIdxD] at h
    by_cases hn : esNameAt es i name = true
    · rw [if_pos hn] at h
      injection h with h
      subst h
      exact ⟨by omega, hn, fun k hk1 hk2 => by omega⟩
    · rw [if_neg hn] at h
      obtain ⟨h1, h2, h3⟩ := lastNameIdxD_spec es name i j' h
      refine ⟨by omega, h2, fun k hk1 hk2 => ?_⟩
      by_cases hk : k = i
      · subst hk
        simpa using hn
      · exact h3 k hk1 (by omega)

theorem mostRecent_skip (es : List RefData) (name : String) (j' : Nat) :
    ∀ (j : Nat), j' + 1 ≤ j →
      (∀ k, j' < k → k < j → esNameAt es k name = false) →
      mostRecentAnchorBefore es j name = mostRecentAnchorBefore es (j' + 1) name := by
  intro j
  induction j with
  | zero => intro h hk; omega
  | succ j ihj =>
    intro h hk
    by_cases hj : j' + 1 = j + 1
    · rw [hj]
    · have hlt : j' + 1 ≤ j := by omega
      have hnj : esNameAt es j name = false := hk j (by omega) (by omega)
      have hanch : anchorAt es j name = false := by
        cases ha : anchorAt es j name
        · rfl
        · have := esNameAt_of_anchorAt es j name ha
          rw [this] at hnj
          exact absurd hnj (by simp)
      rw [mostRecentAnchorBefore, if_neg (by simp [hanch])]
      exact ihj hlt (fun k h1 h2 => hk k h1 (by omega))

theorem walkAnchors_correct (es : List RefData) (hwf : chainsWF es) :
    ∀ (fuel j : Nat) (name : String), j < fuel → esNameAt es j name = true →
      walkAnchors es fuel (some j) = mostRecentAnchorBefore es (j + 1) name := by
  intro fuel
  induction fuel with
  | zero => intro j name hj hname; omega
  | succ fuel ih =>
    intro j name hj hname
    obtain ⟨e, he⟩ : ∃ e, es.get? j = some e := by
      unfold esNameAt at hname
      cases hg : es.get? j
      · rw [hg] at hname; simp at hname
      · exact ⟨_, rfl⟩
    have hename : (e.name == name) = true := by
      unfold esNameAt at hname
      rw [he] at hname
      exact hname
    have hename' : e.name = name := eq_of_beq hename
    simp only [walkAnchors, he]
    by_cases hanch : e.isAnchor = true
    · rw [if_pos hanch, mostRecentAnchorBefore]
      have hA : anchorAt es j name = true := by
        unfold anchorAt
        rw [he]
        simp [hanch, hename]
      rw [if_pos (by simp [hA])]
    · rw [if_neg hanch]
      have hprev : e.prevAnchor = lastNameIdxD es j e.name := hwf j e he
      have hanchf : anchorAt es j name = false := by
        unfold anchorAt
        rw [he]
        simp at hanch
        simp [hanch]
      rw [mostRecentAnchorBefore, if_neg (by simp [hanchf]), hprev, hename']
      cases hlast : lastNameIdxD es j name with
      | none => simp [walkAnchors, mostRecent_eq_none es name j hlast]
      | some j'' =>
        obtain ⟨h1, h2, h3⟩ := lastNameIdxD_spec es name j j'' hlast
        rw [mostRecent_skip es name j'' j (by omega) h3]
        exact ih j'' name (by omega) h2

theorem lookupRef_eq_mostRecent (es : List RefData) (hwf : chainsWF es)
    (i : Nat) (e : RefData) (he : es.get? i = some e) :
    lookupRef es i = mostRecentAnchorBefore es i e.name := by
  unfold lookupRef
  simp only [he]
  have hprev : e.prevAnchor = lastNameIdxD es i e.name := hwf i e he
  rw [hprev]
  cases hlast : lastNameIdxD es i e.name with
  | none => simp [walkAnchors, mostRecent_eq_none es e.name i hlast]
  | some j' =>
    obtain ⟨h1, h2, h3⟩ := lastNameIdxD_spec es e.name i j' hlast
    have hi : i < es.length := (List.get?_eq_some.mp he).1
    rw [walkAnchors_correct es hwf es.length j' e.name (by omega) h2]
    exact (mostRecent_skip es e.name j' i (by omega) h3).symm

theorem resolveGo_no_overflow (es : List RefData) :
    ∀ (idxs : List Nat) (acc : List (Nat × Nat)),
      resolveGo es idxs acc ≠ .error .overflow
  | [], acc => by simp [resolveGo]
  | i :: rest, acc => by
    rw [resolveGo]
    cases hg : es.get? i with
    | none => exact resolveGo_no_overflow es rest acc
    | some e =>
      by_cases ha : e.isAlias = true
      · simp only [ha, if_true]
        cases hl : lookupRef es i with
        | some j => exact resolveGo_no_overflow es rest (acc ++ [(i, j)])
        | none => simp
      · simp only [ha, if_false]
        exact resolveGo_no_overflow es rest acc

theorem resolveGo_acc_sub (es : List RefData) :
    ∀ (idxs : List Nat) (acc ps : List (Nat × Nat)),
      resolveGo es idxs acc = .ok ps → ∀ p ∈ acc, p ∈ ps
  | [], acc, ps, h => by
    simp [resolveGo] at h
    subst h
    exact fun p hp => hp
  | i :: rest, acc, ps, h => by
    rw [resolveGo] at h
    cases hg : es.get? i with
    | none =>
      simp only [hg] at h
      exact resolveGo_acc_sub es rest acc ps h
    | some e =>
      simp only [hg] at h
      by_cases ha : e.isAlias = true
      · rw [if_pos ha] at h
        cases hl : lookupRef es i with
        | some j =>
          simp only [hl] at h
          intro p hp
          exact resolveGo_acc_sub es rest _ ps h p (by simp [hp])
        | none =>
          simp only [hl] at h
          exact absurd h (by simp)
      · rw [if_neg ha] at h
        exact resolveGo_acc_sub es rest acc ps h

theorem resolveGo_mem (es : List RefData) :
    ∀ (idxs : List Nat) (acc ps : List (Nat × Nat)) (k : Nat) (e : RefData)
      (j : Nat), resolveGo es idxs acc = .ok ps → k ∈ idxs →
      es.get? k = some e → e.isAlias = true → lookupRef es k = some j →
      (k, j) ∈ ps
  | [], acc, ps, k, e, j, h, hk, _, _, _ => by simp at hk
  | i :: rest, acc, ps, k, e, j, h, hk, hke, halias, hlook => by
    rw [resolveGo] at h
    rcases List.mem_cons.mp hk with heq | hmem
    · subst heq
      simp only [hke, halias, if_true, hlook] at h
      exact resolveGo_acc_sub es rest _ ps h (k, j) (by simp)
    · cases hg : es.get? i with
      | none =>
        simp only [hg] at h
        exact resolveGo_mem es rest acc ps k e j h hmem hke halias hlook
      | some ei =>
        simp only [hg] at h
        by_cases ha : ei.isAlias = true
        · rw [if_pos ha] at h
          cases hl : lookupRef es i with
          | some j' =>
            simp only [hl] at h
            exact resolveGo_mem es rest _ ps k e j h hmem hke halias hlook
          | none =>
            simp only [hl] at h
            exact absurd h (by simp)
        · rw [if_neg ha] at h
          exact resolveGo_mem es rest acc ps k e j h hmem hke halias hlook

theorem resolveGo_fails (es : List RefData) :
    ∀ (idxs : List Nat) (acc : List (Nat × Nat)) (k : Nat) (e : RefData),
      k ∈ idxs → es.get? k = some e → e.isAlias = true →
      lookupRef es k = none →
      ∃ nm, resolveGo es idxs acc = .error (.refNotFound nm)
  | [], acc, k, e, hk, _, _, _ => by simp at hk
  | i :: rest, acc, k, e, hk, hke, halias, hlook => by
    rw [resolveGo]
    rcases List.mem_cons.mp hk with heq | hmem
    · subst heq
      simp only [hke, halias, if_true, hlook]
      exact ⟨e.name, rfl⟩
    · cases hg : es.get? i with
      | none =>
        simp only [hg]
        exact resolveGo_fails es rest acc k e hmem hke halias hlook
      | some ei =>
        simp only [hg]
        by_cases ha : ei.isAlias = true
        · simp only [ha, if_true]
          cases hl : lookupRef es i with
          | some j =>
            simp only [hl]
            exact resolveGo_fails es rest _ k e hmem hke halias hlook
          | none =>
            simp only [hl]
            exact ⟨ei.name, rfl⟩
        · simp only [ha, if_false]
          exact resolveGo_fails es rest acc k e hmem hke halias hlook

/-- C1: for every tree and every alias entry of its gather pass, `lookup_`
resolves the alias to the most recent anchor with the same name gathered
strictly before it (so with two same-named preceding anchors the
later-occurring one wins); on a successful resolve the output records that
match; and when no same-named anchor precedes the alias, the resolve step
aborts with a reference-not-found failure. -/
theorem C1_alias_resolves_most_recent_preceding_anchor (t : RTree) (i : Nat)
    (e : RefData) (he : (gatherRefs t).get? i = some e)
    (halias : e.isAlias = true) :
    lookupRef (gatherRefs t) i = mostRecentAnchorBefore (gatherRefs t) i e.name ∧
    (∀ ps j, resolveRefs t = .ok ps →
      mostRecentAnchorBefore (gatherRefs t) i e.name = some j → (i, j) ∈ ps) ∧
    (mostRecentAnchorBefore (gatherRefs t) i e.name = none →
      ∃ nm, resolveRefs t = .error (.refNotFound nm)) := by
  have hwf := gatherRefs_chainsWF t
  have hlk := lookupRef_eq_mostRecent _ hwf i e he
  have hmemi : i ∈ List.range (gatherRefs t).length := by
    rw [List.mem_range]
    exact (List.get?_eq_some.mp he).1
  refine ⟨hlk, ?_, ?_⟩
  · intro ps j hok hmr
    exact resolveGo_mem _ _ _ ps i e j hok hmemi he halias (hlk.trans hmr)
  · intro hnone
    exact resolveGo_fails _ _ [] i e hmemi he halias (hlk.trans hnone)

/-- Fixture: two same-named anchors before an alias. -/
def t1 : RTree :=
  .node .plain [.node (.anchor "x") [], .node (.anchor "x") [],
    .node (.ref "x") []]

/-- Fixture: an alias with no anchor anywhere. -/
def t2 : RTree := .node .plain [.node (.ref "y") []]

/-- Witness for C1: with two anchors named "x" (entries 0 and 1) preceding
the alias (entry 2), lookup resolves to the later anchor (entry 1), and a
successful resolve records it; an alias with no anchor makes the resolve
step fail with reference-not-found. -/
theorem C1_alias_resolves_most_recent_preceding_anchor_witness :
    lookupRef (gatherRefs t1) 2 = some 1 ∧
    (∃ nm, resolveRefs t2 = .error (.refNotFound nm)) := by
  have h1 := C1_alias_resolves_most_recent_preceding_anchor t1 2 _ rfl rfl
  have h2 := C1_alias_resolves_most_recent_preceding_anchor t2 0 _ rfl rfl
  exact ⟨h1.1.trans rfl, h2.2.2 rfl⟩

/-- C8 (amended): the resolver, whose whole interface and state are the
budget-less `resolve(Tree*)` of the header, never aborts resolution with an
overflow failure, whatever the number of copied nodes. -/
theorem C8_resolver_never_overflow_aborts (t : RTree) :
    resolveRefs t ≠ .error .overflow :=
  resolveGo_no_overflow (gatherRefs t) (List.range (gatherRefs t).length) []

/-- Fixture for C8: an anchored 3-node subtree aliased twice, so resolution
materializes 6 copied nodes. -/
def t8 : RTree :=
  .node .plain [.node (.anchor "x") [.node .plain [], .node .plain []],
    .node (.ref "x") [], .node (.ref "x") []]

/-- Counterexample to C8 as stated: resolution of `t8` copies 6 nodes yet
completes successfully — there is no budget below which a dedicated
overflow failure would abort it (the header's resolver state has no budget
field and `resolve` takes no budget argument; its to-do note flags the
unaddressed amplification risk). -/
theorem C8_counterexample_no_budget :
    resolveRefs t8 = .ok [(1, 0), (2, 0)] ∧
    copiedCount (gatherRefs t8) [(1, 0), (2, 0)] = 6 ∧
    resolveRefs t8 ≠ .error .overflow := by
  refine ⟨rfl, rfl, ?_⟩
  intro h
  have h' : (Except.ok [(1, 0), (2, 0)] : Except ResolveErr (List (Nat × Nat)))
      = .error .overflow := h
  exact absurd h' (by simp)

end OpenXcomYaml
